import Mathlib

/-!
Shallow embedding of the employee-directory GraphQL server
(`src/server/index.js`) together with proofs about its query pipeline
(filter, sort, paginate), its authentication gate and its mutations.

Modelling conventions:
* JavaScript numbers that hold integers (ages, attendance, page, pageSize)
  are embedded as `Int`; list lengths as `Nat`.
* JavaScript strings are embedded as `String`; the JS `<`/`>` comparison on
  strings (code-unit lexicographic) coincides with Lean's `String` order on
  the basic-multilingual-plane text used here, and `toLowerCase` is embedded
  as a character-wise `Char.toLower` map.
* The JWT produced by `jwt.sign` is embedded by its signed payload
  `{id, username, role}`; signature bytes carry no further information that
  the server ever inspects.
* Thrown JS errors are embedded as `Except` values; the four error messages
  of the server map to the four constructors of `ApiError`.
* The mutable global `employees` array is embedded by explicit state
  passing: each mutation returns its result together with the new store.
-/

set_option maxHeartbeats 1000000

deriving instance DecidableEq for Except

namespace EmployeeServer

/-- Role enum of the GraphQL schema. -/
inductive Role
  | ADMIN
  | EMPLOYEE
deriving DecidableEq

/-- An employee record, as stored in the in-memory `employees` array. -/
structure Employee where
  id : String
  name : String
  age : Int
  className : String
  subjects : List String
  attendance : Int
  flagged : Bool
  createdAt : String
deriving DecidableEq

/-- Seed record `e1` (Alice Johnson). -/
def aliceSeed : Employee :=
  ⟨"e1", "Alice Johnson", 29, "Class A", ["Math", "Science"], 96, false,
    "2024-01-12T00:00:00.000Z"⟩

/-- Seed record `e2` (Bob Singh). -/
def bobSeed : Employee :=
  ⟨"e2", "Bob Singh", 34, "Class B", ["English", "History"], 89, true,
    "2024-03-01T00:00:00.000Z"⟩

/-- Seed record `e3` (Clara Lee). -/
def claraSeed : Employee :=
  ⟨"e3", "Clara Lee", 26, "Class A", ["Biology", "Chemistry"], 92, false,
    "2024-05-21T00:00:00.000Z"⟩

/-- The initial value of the global `employees` array. -/
def employees : List Employee := [aliceSeed, bobSeed, claraSeed]

/-- Embedding of JS `String.prototype.toLowerCase` (character-wise). -/
def jsToLower (s : String) : String := String.mk (s.data.map Char.toLower)

/-- `occursIn pat l` holds when `pat` occurs as a contiguous run inside `l`;
this is the semantics of JS `String.prototype.includes`. -/
def occursIn (pat : List Char) : List Char → Bool
  | [] => pat.isEmpty
  | c :: cs => pat.isPrefixOf (c :: cs) || occursIn pat cs

/-- Embedding of JS `s.includes(pat)`. -/
def strIncludes (s pat : String) : Bool := occursIn pat.data s.data

/-- The `EmployeeFilter` GraphQL input object; `none` is an absent (or
explicit-null) field. -/
structure EmployeeFilter where
  nameContains : Option String
  className : Option String
  minAttendance : Option Int
deriving DecidableEq

/-- Embedding of `filterEmployees(list, filter)`.  The JS code guards the two
string predicates with truthiness (`if (filter.nameContains)`,
`if (filter.className)`), so an empty string disables them, while the
attendance guard is `typeof filter.minAttendance === 'number'`, which accepts
`0`. -/
def filterEmployees (list : List Employee) (filter : Option EmployeeFilter) :
    List Employee :=
  match filter with
  | none => list
  | some f =>
    let r1 :=
      match f.nameContains with
      | some q =>
        if q = "" then list
        else list.filter (fun e => strIncludes (jsToLower e.name) (jsToLower q))
      | none => list
    let r2 :=
      match f.className with
      | some c => if c = "" then r1 else r1.filter (fun e => e.className == c)
      | none => r1
    match f.minAttendance with
    | some m => r2.filter (fun e => decide (m ≤ e.attendance))
    | none => r2

/-- Sort-field enum of the GraphQL schema. -/
inductive EmployeeSortField
  | NAME
  | AGE
  | ATTENDANCE
  | CREATED_AT
deriving DecidableEq

/-- Sort-order enum of the GraphQL schema. -/
inductive SortOrder
  | ASC
  | DESC
deriving DecidableEq

/-- The `EmployeeSort` GraphQL input object. -/
structure EmployeeSort where
  field : EmployeeSortField
  order : SortOrder
deriving DecidableEq

/-- Lexicographic strict comparison of character lists, the semantics of the
JS `<` operator on strings (code-unit order; a proper prefix sorts first). -/
def charsLt : List Char → List Char → Bool
  | _, [] => false
  | [], _ :: _ => true
  | a :: as, b :: bs => a < b || (a == b && charsLt as bs)

/-- JS `a < b` on strings. -/
def strLt (a b : String) : Bool := charsLt a.data b.data

/-- JS `a < b` on (integral) numbers. -/
def intLt (x y : Int) : Bool := decide (x < y)

/-- The comparator body shared by all four fields of `sortEmployees`:
`if (av < bv) return -1 * dir; if (av > bv) return 1 * dir; return 0`. -/
def cmpVals {β : Type} (ltf : β → β → Bool) (x y : β) (dir : Int) : Int :=
  if ltf x y then -1 * dir else if ltf y x then 1 * dir else 0

/-- The comparator passed to `Array.prototype.sort` by `sortEmployees`. -/
def empCmp (s : EmployeeSort) (a b : Employee) : Int :=
  let dir : Int := if s.order = SortOrder.DESC then -1 else 1
  match s.field with
  | EmployeeSortField.NAME => cmpVals strLt (jsToLower a.name) (jsToLower b.name) dir
  | EmployeeSortField.AGE => cmpVals intLt a.age b.age dir
  | EmployeeSortField.ATTENDANCE => cmpVals intLt a.attendance b.attendance dir
  | EmployeeSortField.CREATED_AT => cmpVals strLt a.createdAt b.createdAt dir

/-- `empCmpLe s a b` says the comparator does not order `b` strictly before
`a`; a stable sort keeps `a` before `b` exactly in this case. -/
def empCmpLe (s : EmployeeSort) (a b : Employee) : Prop := empCmp s a b ≤ 0

instance (s : EmployeeSort) : DecidableRel (empCmpLe s) := fun a b =>
  inferInstanceAs (Decidable (empCmp s a b ≤ 0))

/-- Embedding of `sortEmployees(list, sort)`.  `[...list].sort(cmp)` is the
ECMAScript stable sort; since the comparator induces a total preorder, sorted
plus stable determines the output uniquely, so any stable sort is a faithful
embedding — we use insertion sort with the non-strict comparator relation. -/
def sortEmployees (list : List Employee) (sort : Option EmployeeSort) :
    List Employee :=
  match sort with
  | none => list
  | some s => list.insertionSort (empCmpLe s)

/-- The `EmployeePage` GraphQL result object. -/
structure EmployeePage where
  items : List Employee
  totalCount : Nat
  page : Int
  pageSize : Int
deriving DecidableEq

/-- Embedding of `Array.prototype.slice(start, fin)` (ECMAScript clamping
semantics, including the negative-index cases). -/
def jsSlice {α : Type} (l : List α) (start fin : Int) : List α :=
  let len : Int := l.length
  let k := if start < 0 then max (len + start) 0 else min start len
  let f := if fin < 0 then max (len + fin) 0 else min fin len
  (l.take f.toNat).drop k.toNat

/-- Embedding of the `Query.employees` resolver: filter, sort, count, slice. -/
def employeesQuery (store : List Employee) (filter : Option EmployeeFilter)
    (page : Int) (pageSize : Int) (sort : Option EmployeeSort) : EmployeePage :=
  let l1 := filterEmployees store filter
  let l2 := sortEmployees l1 sort
  let totalCount := l2.length
  let start := (page - 1) * pageSize
  let items := jsSlice l2 start (start + pageSize)
  ⟨items, totalCount, page, pageSize⟩

/-- The token payload placed in the request context by `createContext`. -/
structure AuthUser where
  id : String
  username : String
  role : Role
deriving DecidableEq

/-- The per-request resolver context: either anonymous or a verified user. -/
structure Context where
  user : Option AuthUser
deriving DecidableEq

/-- The four user-visible failures thrown by the server, in order:
`Not authenticated`, `Not authorized`, `Invalid credentials`,
`Employee not found`. -/
inductive ApiError
  | notAuthenticated
  | notAuthorized
  | invalidCredentials
  | notFound
deriving DecidableEq

/-- Embedding of `requireAuth(context)`. -/
def requireAuth (context : Context) : Except ApiError Unit :=
  match context.user with
  | none => Except.error ApiError.notAuthenticated
  | some _ => Except.ok ()

/-- Embedding of `requireRole(context, roles)`: `requireAuth` followed by the
`roles.includes(context.user.role)` check. -/
def requireRole (context : Context) (roles : List Role) : Except ApiError Unit :=
  match context.user with
  | none => Except.error ApiError.notAuthenticated
  | some u =>
    if roles.contains u.role then Except.ok ()
    else Except.error ApiError.notAuthorized

/-- A record of the static `users` array. -/
structure UserRec where
  id : String
  username : String
  password : String
  role : Role
deriving DecidableEq

/-- The static `users` array. -/
def users : List UserRec :=
  [⟨"1", "admin", "admin123", Role.ADMIN⟩,
   ⟨"2", "john", "john123", Role.EMPLOYEE⟩]

/-- The public `{id, username, role}` projection of a user (also the payload
signed into the JWT). -/
structure PublicUser where
  id : String
  username : String
  role : Role
deriving DecidableEq

/-- The `AuthPayload` GraphQL result object; the token is embedded by its
signed payload. -/
structure AuthPayload where
  token : PublicUser
  user : PublicUser
deriving DecidableEq

/-- Embedding of the `Mutation.login` resolver. -/
def login (username password : String) : Except ApiError AuthPayload :=
  match users.find? (fun u => u.username == username && u.password == password) with
  | none => Except.error ApiError.invalidCredentials
  | some u => Except.ok ⟨⟨u.id, u.username, u.role⟩, ⟨u.id, u.username, u.role⟩⟩

/-- The `EmployeeInput` GraphQL input object; only `flagged` is optional. -/
structure EmployeeInput where
  name : String
  age : Int
  className : String
  subjects : List String
  attendance : Int
  flagged : Option Bool
deriving DecidableEq

/-- The id assigned by `addEmployee`: `` `e${employees.length + 1}` ``. -/
def freshId (store : List Employee) : String := "e" ++ Nat.repr (store.length + 1)

/-- Embedding of the `Mutation.addEmployee` resolver.  `now` is the value of
`new Date().toISOString()` at call time. -/
def addEmployee (store : List Employee) (input : EmployeeInput)
    (context : Context) (now : String) : Except ApiError Employee × List Employee :=
  match requireRole context [Role.ADMIN] with
  | Except.error err => (Except.error err, store)
  | Except.ok _ =>
    let employee : Employee :=
      ⟨freshId store, input.name, input.age, input.className, input.subjects,
        input.attendance, input.flagged.getD false, now⟩
    (Except.ok employee, store ++ [employee])

/-- The record produced by `{...employees[idx], ...input}`: every input field
overwrites, `id` and `createdAt` (absent from `EmployeeInput`) survive, and an
omitted `flagged` key leaves the stored flag in place. -/
def mergeInput (old : Employee) (input : EmployeeInput) : Employee :=
  ⟨old.id, input.name, input.age, input.className, input.subjects,
    input.attendance, input.flagged.getD old.flagged, old.createdAt⟩

/-- `findIndex` on `id` combined with the in-place overwrite
`employees[idx] = {...employees[idx], ...input}`: replaces the first record
whose id matches and keeps everything else in place. -/
def updateIn (input : EmployeeInput) (id : String) :
    List Employee → Option (Employee × List Employee)
  | [] => none
  | e :: rest =>
    if e.id == id then some (mergeInput e input, mergeInput e input :: rest)
    else (updateIn input id rest).map (fun p => (p.1, e :: p.2))

/-- Embedding of the `Mutation.updateEmployee` resolver. -/
def updateEmployee (store : List Employee) (id : String) (input : EmployeeInput)
    (context : Context) : Except ApiError Employee × List Employee :=
  match requireRole context [Role.ADMIN] with
  | Except.error err => (Except.error err, store)
  | Except.ok _ =>
    match updateIn input id store with
    | none => (Except.error ApiError.notFound, store)
    | some p => (Except.ok p.1, p.2)

/-- The stores reachable from the seed store by any sequence of `addEmployee`
and `updateEmployee` calls (including failing ones, which leave the store
unchanged). -/
inductive Reachable : List Employee → Prop
  | seed : Reachable employees
  | add (s : List Employee) (input : EmployeeInput) (context : Context)
      (now : String) : Reachable s → Reachable (addEmployee s input context now).2
  | update (s : List Employee) (id : String) (input : EmployeeInput)
      (context : Context) : Reachable s → Reachable (updateEmployee s id input context).2

/-! ### Specification-side predicates

These restate, independently of the resolver code, the per-record predicate a
filter imposes and the per-field key order a sort spec imposes; the theorems
below compare the code with them. -/

/-- The single conjunctive per-record predicate described by the (amended)
filter specification: a string predicate constrains only when supplied and
non-empty, the attendance threshold constrains whenever supplied. -/
def passesFilter (f : EmployeeFilter) (e : Employee) : Bool :=
  (match f.nameContains with
    | none => true
    | some q => q == "" || strIncludes (jsToLower e.name) (jsToLower q))
  &&
  ((match f.className with
    | none => true
    | some c => c == "" || e.className == c)
  &&
  (match f.minAttendance with
    | none => true
    | some m => decide (m ≤ e.attendance)))

/-- Lexicographic (code-unit) `≤` on strings: `b` is not strictly below `a`. -/
def strLe (a b : String) : Prop := strLt b a = false

/-- The ascending key order a sort field designates: case-insensitive on
names, numeric on ages and attendance, lexical on `createdAt` strings. -/
def keyLeAsc : EmployeeSortField → Employee → Employee → Prop
  | EmployeeSortField.NAME => fun a b => strLe (jsToLower a.name) (jsToLower b.name)
  | EmployeeSortField.AGE => fun a b => a.age ≤ b.age
  | EmployeeSortField.ATTENDANCE => fun a b => a.attendance ≤ b.attendance
  | EmployeeSortField.CREATED_AT => fun a b => strLe a.createdAt b.createdAt

/-- The key order a sort spec designates; DESC flips the ascending order. -/
def keyLe (s : EmployeeSort) (a b : Employee) : Prop :=
  match s.order with
  | SortOrder.ASC => keyLeAsc s.field a b
  | SortOrder.DESC => keyLeAsc s.field b a

/-- The sort key a field extracts from a record (two records tie under the
comparator exactly when their keys are equal). -/
def fieldKey : EmployeeSortField → Employee → String ⊕ Int
  | EmployeeSortField.NAME => fun e => Sum.inl (jsToLower e.name)
  | EmployeeSortField.AGE => fun e => Sum.inr e.age
  | EmployeeSortField.ATTENDANCE => fun e => Sum.inr e.attendance
  | EmployeeSortField.CREATED_AT => fun e => Sum.inl e.createdAt

/-! ### Decimal-representation helpers

`addEmployee` builds ids as `"e" ++ Nat.repr (length + 1)`; to show ids are
never reissued we prove `Nat.repr` injective via a digit-value roundtrip. -/

/-- Numeric value of a decimal digit character. -/
def digitVal (c : Char) : Nat := c.toNat - 48

/-- Left fold reading a decimal digit string, most significant first. -/
def valFrom (a : Nat) : List Char → Nat
  | [] => a
  | c :: cs => valFrom (a * 10 + digitVal c) cs

/-- The id column a store of `k` records has under the counter scheme:
`e1, e2, …, ek`. -/
def idsSpec (k : Nat) : List String :=
  (List.range k).map (fun i => "e" ++ Nat.repr (i + 1))

/-! ### Order lemmas for the string comparison -/

theorem charsLt_irrefl : ∀ l, charsLt l l = false
  | [] => rfl
  | c :: cs => by simp [charsLt, charsLt_irrefl cs]

theorem charsLt_trans :
    ∀ a b c : List Char, charsLt a b = true → charsLt b c = true → charsLt a c = true := by
  intro a
  induction a with
  | nil =>
    intro b c h1 h2
    cases b with
    | nil => exact absurd h1 (by simp [charsLt])
    | cons y ys =>
      cases c with
      | nil => exact absurd h2 (by simp [charsLt])
      | cons z zs => simp [charsLt]
  | cons x xs ih =>
    intro b c h1 h2
    cases b with
    | nil => exact absurd h1 (by simp [charsLt])
    | cons y ys =>
      cases c with
      | nil => exact absurd h2 (by simp [charsLt])
      | cons z zs =>
        simp only [charsLt, Bool.or_eq_true, Bool.and_eq_true, decide_eq_true_eq,
          beq_iff_eq] at h1 h2 ⊢
        rcases h1 with h1 | ⟨rfl, h1⟩
        · rcases h2 with h2 | ⟨rfl, h2⟩
          · exact Or.inl (lt_trans h1 h2)
          · exact Or.inl h1
        · rcases h2 with h2 | ⟨rfl, h2⟩
          · exact Or.inl h2
          · exact Or.inr ⟨rfl, ih ys zs h1 h2⟩

theorem charsLt_trichotomy :
    ∀ a b : List Char, charsLt a b = true ∨ a = b ∨ charsLt b a = true := by
  intro a
  induction a with
  | nil =>
    intro b
    cases b with
    | nil => exact Or.inr (Or.inl rfl)
    | cons y ys => exact Or.inl (by simp [charsLt])
  | cons x xs ih =>
    intro b
    cases b with
    | nil => exact Or.inr (Or.inr (by simp [charsLt]))
    | cons y ys =>
      rcases lt_trichotomy x y with h | rfl | h
      · exact Or.inl (by simp [charsLt, h])
      · rcases ih ys with h2 | rfl | h2
        · exact Or.inl (by simp [charsLt, h2])
        · exact Or.inr (Or.inl rfl)
        · exact Or.inr (Or.inr (by simp [charsLt, h2]))
      · exact Or.inr (Or.inr (by simp [charsLt, h]))

theorem charsLt_asymm {a b : List Char} (h : charsLt a b = true) : charsLt b a = false := by
  by_contra hc
  rw [Bool.not_eq_false] at hc
  have hself := charsLt_trans a b a h hc
  rw [charsLt_irrefl] at hself
  exact Bool.false_ne_true hself

theorem strLt_asymm : ∀ x y : String, strLt x y = true → strLt y x = false :=
  fun _ _ h => charsLt_asymm h

theorem intLt_asymm : ∀ x y : Int, intLt x y = true → intLt y x = false := by
  intro x y h
  simp only [intLt, decide_eq_true_eq] at h
  simp only [intLt, decide_eq_false_iff_not]
  omega

theorem intLt_eq_false_iff {x y : Int} : intLt x y = false ↔ y ≤ x := by
  simp [intLt, not_lt]

theorem strLe_refl (x : String) : strLe x x := charsLt_irrefl x.data

theorem strLe_trans {x y z : String} (h1 : strLe x y) (h2 : strLe y z) : strLe x z := by
  unfold strLe strLt at h1 h2 ⊢
  by_contra hc
  rw [Bool.not_eq_false] at hc
  rcases charsLt_trichotomy y.data z.data with h3 | heq | h3
  · have hyx := charsLt_trans y.data z.data x.data h3 hc
    rw [h1] at hyx
    exact Bool.false_ne_true hyx
  · rw [heq] at h1
    rw [h1] at hc
    exact Bool.false_ne_true hc
  · rw [h2] at h3
    exact Bool.false_ne_true h3

theorem strLe_of_eq {x y : String} (h : x = y) : strLe x y := by
  rw [h]
  exact strLe_refl y

theorem strLe_total (x y : String) : strLe x y ∨ strLe y x := by
  unfold strLe
  by_cases h : strLt y x = true
  · exact Or.inr (strLt_asymm _ _ h)
  · exact Or.inl (by rwa [Bool.not_eq_true] at h)

/-! ### Comparator lemmas -/

theorem cmpVals_one_le {β : Type} (ltf : β → β → Bool)
    (hasym : ∀ x y, ltf x y = true → ltf y x = false) (x y : β) :
    cmpVals ltf x y 1 ≤ 0 ↔ ltf y x = false := by
  unfold cmpVals
  by_cases h1 : ltf x y = true
  · rw [if_pos h1]
    simp [hasym x y h1]
  · rw [if_neg h1]
    by_cases h2 : ltf y x = true
    · rw [if_pos h2]
      simp [h2]
    · rw [if_neg h2]
      rw [Bool.not_eq_true] at h2
      simp [h2]

theorem cmpVals_negone_le {β : Type} (ltf : β → β → Bool) (x y : β) :
    cmpVals ltf x y (-1) ≤ 0 ↔ ltf x y = false := by
  unfold cmpVals
  by_cases h1 : ltf x y = true
  · rw [if_pos h1]
    simp [h1]
  · rw [if_neg h1]
    rw [Bool.not_eq_true] at h1
    by_cases h2 : ltf y x = true
    · rw [if_pos h2]
      simp [h1]
    · rw [if_neg h2]
      simp [h1]

theorem cmpVals_neg {β : Type} (ltf : β → β → Bool) (x y : β) :
    cmpVals ltf x y (-1) = - cmpVals ltf x y 1 := by
  unfold cmpVals
  by_cases h1 : ltf x y = true
  · rw [if_pos h1, if_pos h1]
    norm_num
  · rw [if_neg h1, if_neg h1]
    by_cases h2 : ltf y x = true
    · rw [if_pos h2, if_pos h2]
      norm_num
    · rw [if_neg h2, if_neg h2]
      norm_num

theorem cmpVals_self_eq_zero {β : Type} (ltf : β → β → Bool) (x : β)
    (h : ltf x x = false) (dir : Int) : cmpVals ltf x x dir = 0 := by
  unfold cmpVals
  rw [if_neg (by simp [h]), if_neg (by simp [h])]

/-! ### The comparator agrees with the per-field key order -/

theorem empCmpLe_iff (s : EmployeeSort) (a b : Employee) :
    empCmpLe s a b ↔ keyLe s a b := by
  obtain ⟨f, o⟩ := s
  cases o <;> cases f <;>
    first
      | exact cmpVals_one_le strLt strLt_asymm _ _
      | exact (cmpVals_one_le intLt intLt_asymm _ _).trans intLt_eq_false_iff
      | exact cmpVals_negone_le strLt _ _
      | exact (cmpVals_negone_le intLt _ _).trans intLt_eq_false_iff

theorem empCmpLe_total (s : EmployeeSort) : ∀ a b, empCmpLe s a b ∨ empCmpLe s b a := by
  intro a b
  rw [empCmpLe_iff, empCmpLe_iff]
  obtain ⟨f, o⟩ := s
  cases o <;> cases f <;>
    first
      | exact strLe_total _ _
      | exact Int.le_total _ _

theorem empCmpLe_trans (s : EmployeeSort) :
    ∀ a b c, empCmpLe s a b → empCmpLe s b c → empCmpLe s a c := by
  intro a b c h1 h2
  rw [empCmpLe_iff] at h1 h2 ⊢
  obtain ⟨f, o⟩ := s
  cases o <;> cases f <;>
    first
      | exact strLe_trans h1 h2
      | exact le_trans h1 h2
      | exact strLe_trans h2 h1
      | exact le_trans h2 h1

theorem empCmpLe_of_fieldKey_eq (s : EmployeeSort) (a b : Employee)
    (h : fieldKey s.field a = fieldKey s.field b) : empCmpLe s a b := by
  rw [empCmpLe_iff]
  obtain ⟨f, o⟩ := s
  cases f <;> simp only [fieldKey, Sum.inl.injEq, Sum.inr.injEq] at h <;> cases o <;>
    first
      | exact strLe_of_eq h
      | exact strLe_of_eq h.symm
      | exact le_of_eq h
      | exact le_of_eq h.symm

/-! ### C3: sorting -/

/-- C3: for every record list and sort spec, `sortEmployees` returns a
permutation of the input ordered by the designated field's key
(case-insensitive on names, numeric on age and attendance, lexical on
`createdAt`), the sort is stable (records with equal sort keys keep their
relative order), and DESC reverses the comparator's sign relative to ASC. -/
theorem sortEmployees_stable_ordered (l : List Employee) (s : EmployeeSort) :
    List.Perm (sortEmployees l (some s)) l
    ∧ List.Pairwise (keyLe s) (sortEmployees l (some s))
    ∧ (∀ a b : Employee, List.Sublist [a, b] l →
        fieldKey s.field a = fieldKey s.field b →
        List.Sublist [a, b] (sortEmployees l (some s)))
    ∧ (∀ (f : EmployeeSortField) (a b : Employee),
        empCmp ⟨f, SortOrder.DESC⟩ a b = - empCmp ⟨f, SortOrder.ASC⟩ a b) := by
  refine ⟨List.perm_insertionSort _ l, ?_, ?_, ?_⟩
  · haveI : IsTotal Employee (empCmpLe s) := ⟨empCmpLe_total s⟩
    haveI : IsTrans Employee (empCmpLe s) := ⟨fun a b c => empCmpLe_trans s a b c⟩
    exact (List.sorted_insertionSort (empCmpLe s) l).imp
      (fun h => (empCmpLe_iff s _ _).mp h)
  · intro a b hsub hkey
    exact List.pair_sublist_insertionSort (empCmpLe_of_fieldKey_eq s a b hkey) hsub
  · intro f a b
    cases f <;> exact cmpVals_neg _ _ _

/-- Witness for C3: two distinct records with equal attendance keep their
relative order under an attendance sort. -/
theorem sortEmployees_stable_ordered_witness :
    List.Sublist
      [(⟨"t1", "Zed", 30, "Class C", [], 50, false, "2024-06-01T00:00:00.000Z"⟩ : Employee),
       (⟨"t2", "Ann", 31, "Class D", [], 50, true, "2024-06-02T00:00:00.000Z"⟩ : Employee)]
      (sortEmployees
        [⟨"t1", "Zed", 30, "Class C", [], 50, false, "2024-06-01T00:00:00.000Z"⟩,
         ⟨"t2", "Ann", 31, "Class D", [], 50, true, "2024-06-02T00:00:00.000Z"⟩]
        (some ⟨EmployeeSortField.ATTENDANCE, SortOrder.ASC⟩)) :=
  (sortEmployees_stable_ordered
      [⟨"t1", "Zed", 30, "Class C", [], 50, false, "2024-06-01T00:00:00.000Z"⟩,
       ⟨"t2", "Ann", 31, "Class D", [], 50, true, "2024-06-02T00:00:00.000Z"⟩]
      ⟨EmployeeSortField.ATTENDANCE, SortOrder.ASC⟩).2.2.1 _ _
    (List.Sublist.refl _) rfl

/-! ### C2: filtering -/

theorem ite_filter_eq (l : List Employee) (q : String) (p : Employee → Bool) :
    (if q = "" then l else l.filter p) = l.filter (fun e => q == "" || p e) := by
  by_cases hq : q = ""
  · rw [if_pos hq]
    have hb : (q == "") = true := beq_iff_eq.mpr hq
    simp [hb]
  · rw [if_neg hq]
    have hb : (q == "") = false := beq_eq_false_iff_ne.mpr hq
    simp [hb]

/-- C2 (amended): filtering is conjunctive and truthiness-guarded: each
supplied predicate constrains independently, except that a string predicate
supplied as the empty string imposes no constraint (JS truthiness), while a
supplied `minAttendance` constrains even when it is `0`; supplying no filter
returns the collection unchanged. -/
theorem filterEmployees_conjunctive (l : List Employee) (f : EmployeeFilter) :
    filterEmployees l (some f) = l.filter (passesFilter f)
    ∧ filterEmployees l none = l := by
  refine ⟨?_, rfl⟩
  obtain ⟨nc, cn, ma⟩ := f
  rcases nc with _ | q <;> rcases cn with _ | c <;> rcases ma with _ | m <;>
    simp only [filterEmployees] <;>
    (try rw [ite_filter_eq]) <;> (try rw [ite_filter_eq]) <;>
    (try simp only [List.filter_filter]) <;>
    first
      | (symm
         exact List.filter_eq_self.mpr fun a ha => by simp [passesFilter])
      | exact List.filter_congr fun e he => by
          simp [passesFilter, Bool.and_comm, Bool.and_left_comm, Bool.and_assoc]

/-- Counterexample to C2 as stated: a `className` predicate supplied as the
empty string does not constrain at all — the record is retained even though
its class label is not `""`. -/
theorem filterEmployees_empty_string_counterexample :
    filterEmployees [aliceSeed] (some ⟨none, some "", none⟩) = [aliceSeed]
    ∧ aliceSeed.className ≠ "" := by
  constructor
  · rfl
  · decide

/-! ### C1: the seed scenario -/

/-- Counterexample to C1 as stated: under `ATTENDANCE DESC` the Class-A page
is not `[Clara, Alice]` — descending attendance puts Alice (96) first. -/
theorem employeesQuery_scenario_counterexample :
    (employeesQuery employees (some ⟨none, some "Class A", none⟩) 1 10
        (some ⟨EmployeeSortField.ATTENDANCE, SortOrder.DESC⟩)).items
      ≠ [claraSeed, aliceSeed] := by
  decide

/-- C1 (amended): the scenario query returns `[Alice, Clara]` in that order
(attendance 96 then 92) with `totalCount` 2. -/
theorem employeesQuery_scenario :
    (employeesQuery employees (some ⟨none, some "Class A", none⟩) 1 10
        (some ⟨EmployeeSortField.ATTENDANCE, SortOrder.DESC⟩)).items
      = [aliceSeed, claraSeed]
    ∧ (employeesQuery employees (some ⟨none, some "Class A", none⟩) 1 10
        (some ⟨EmployeeSortField.ATTENDANCE, SortOrder.DESC⟩)).totalCount = 2 := by
  exact ⟨by decide, by decide⟩

/-! ### C4: pagination -/

theorem sortEmployees_length (l : List Employee) (o : Option EmployeeSort) :
    (sortEmployees l o).length = l.length := by
  cases o with
  | none => rfl
  | some s => exact List.length_insertionSort _ l

theorem jsSlice_eq_drop_take {α : Type} (l : List α) (s ps : Int)
    (hs : 0 ≤ s) (hps : 0 ≤ ps) :
    jsSlice l s (s + ps) = (l.drop s.toNat).take ps.toNat := by
  simp only [jsSlice]
  rw [if_neg (not_lt.mpr hs), if_neg (not_lt.mpr (by omega)), List.drop_take]
  by_cases hcase : (l.length : Int) ≤ s
  · have h1 : (min s (l.length : Int)).toNat = l.length := by omega
    have h2 : l.length ≤ s.toNat := by omega
    rw [h1, List.drop_length, List.drop_eq_nil_iff.mpr h2]
    simp
  · have h1 : (min s (l.length : Int)).toNat = s.toNat := by omega
    rw [h1, List.take_eq_take]
    simp only [List.length_drop]
    omega

/-- C4: for `page ≥ 1` and `pageSize ≥ 0`, `items` is the clamped slice
`[(page-1)*pageSize, +pageSize)` of the filtered-then-sorted list, never
holds more than `pageSize` records, is empty when the start offset is at or
past the end, and `totalCount` is the filtered collection's size regardless
of page and pageSize. -/
theorem employeesQuery_pagination (store : List Employee)
    (filter : Option EmployeeFilter) (sort : Option EmployeeSort)
    (page pageSize : Int) (hp : 1 ≤ page) (hps : 0 ≤ pageSize) :
    (employeesQuery store filter page pageSize sort).items
      = ((sortEmployees (filterEmployees store filter) sort).drop
          ((page - 1) * pageSize).toNat).take pageSize.toNat
    ∧ (employeesQuery store filter page pageSize sort).items.length ≤ pageSize.toNat
    ∧ (((sortEmployees (filterEmployees store filter) sort).length : Int)
          ≤ (page - 1) * pageSize →
        (employeesQuery store filter page pageSize sort).items = [])
    ∧ (employeesQuery store filter page pageSize sort).totalCount
        = (filterEmployees store filter).length := by
  have hstart : 0 ≤ (page - 1) * pageSize := mul_nonneg (by omega) hps
  have hitems : (employeesQuery store filter page pageSize sort).items
      = ((sortEmployees (filterEmployees store filter) sort).drop
          ((page - 1) * pageSize).toNat).take pageSize.toNat := by
    simp only [employeesQuery]
    exact jsSlice_eq_drop_take _ _ _ hstart hps
  refine ⟨hitems, ?_, ?_, ?_⟩
  · rw [hitems]
    exact List.length_take_le _ _
  · intro hlen
    rw [hitems]
    have hge : (sortEmployees (filterEmployees store filter) sort).length
        ≤ ((page - 1) * pageSize).toNat := by omega
    rw [List.drop_eq_nil_iff.mpr hge]
    simp
  · simp only [employeesQuery]
    exact sortEmployees_length _ _

/-- Witness for C4 at the spec's page-2 scenario. -/
theorem employeesQuery_pagination_witness :
    (employeesQuery employees none 2 2
        (some ⟨EmployeeSortField.NAME, SortOrder.ASC⟩)).totalCount
      = (filterEmployees employees none).length :=
  (employeesQuery_pagination employees none
      (some ⟨EmployeeSortField.NAME, SortOrder.ASC⟩) 2 2
      (by decide) (by decide)).2.2.2

/-! ### C5 and C10: the authorization gate -/

/-- C5: both mutations fail `Not authenticated` without a context user and
`Not authorized` for a non-ADMIN user, and under an ADMIN user neither of
those two failures occurs. -/
theorem mutations_role_gate (store : List Employee) (input : EmployeeInput)
    (context : Context) (now : String) (id : String) :
    (context.user = none →
      addEmployee store input context now
          = (Except.error ApiError.notAuthenticated, store)
      ∧ updateEmployee store id input context
          = (Except.error ApiError.notAuthenticated, store))
    ∧ (∀ u, context.user = some u → u.role ≠ Role.ADMIN →
      addEmployee store input context now
          = (Except.error ApiError.notAuthorized, store)
      ∧ updateEmployee store id input context
          = (Except.error ApiError.notAuthorized, store))
    ∧ (∀ u, context.user = some u → u.role = Role.ADMIN →
      (addEmployee store input context now).1 ≠ Except.error ApiError.notAuthenticated
      ∧ (addEmployee store input context now).1 ≠ Except.error ApiError.notAuthorized
      ∧ (updateEmployee store id input context).1 ≠ Except.error ApiError.notAuthenticated
      ∧ (updateEmployee store id input context).1 ≠ Except.error ApiError.notAuthorized) := by
  refine ⟨?_, ?_, ?_⟩
  · intro h
    constructor <;> simp [addEmployee, updateEmployee, requireRole, h]
  · intro u hu hrole
    have hreq : requireRole context [Role.ADMIN] = Except.error ApiError.notAuthorized := by
      have : u.role = Role.EMPLOYEE := by cases hr : u.role <;> simp_all
      simp [requireRole, hu, this]
    constructor <;> simp [addEmployee, updateEmployee, hreq]
  · intro u hu hrole
    have hreq : requireRole context [Role.ADMIN] = Except.ok () := by
      simp [requireRole, hu, hrole]
    refine ⟨?_, ?_, ?_, ?_⟩ <;>
      simp [addEmployee, updateEmployee, hreq] <;>
      cases hupd : updateIn input id store <;> simp [hupd]

/-- Witness for C5: on the seed store, an anonymous add fails
`Not authenticated`. -/
theorem mutations_role_gate_witness :
    addEmployee employees ⟨"X", 1, "C", [], 1, none⟩ ⟨none⟩ "2024-07-01T00:00:00.000Z"
        = (Except.error ApiError.notAuthenticated, employees)
      ∧ updateEmployee employees "e1" ⟨"X", 1, "C", [], 1, none⟩ ⟨none⟩
        = (Except.error ApiError.notAuthenticated, employees) :=
  (mutations_role_gate employees ⟨"X", 1, "C", [], 1, none⟩ ⟨none⟩
      "2024-07-01T00:00:00.000Z" "e1").1 rfl

/-- C10: `updateEmployee` checks authorization before existence — an
anonymous or non-ADMIN caller gets the auth failure even when the id is
absent, and `Employee not found` can only be produced for a caller that
passed the ADMIN check. -/
theorem updateEmployee_auth_before_existence (store : List Employee) (id : String)
    (input : EmployeeInput) (context : Context) :
    (context.user = none →
      updateEmployee store id input context
        = (Except.error ApiError.notAuthenticated, store))
    ∧ (∀ u, context.user = some u → u.role ≠ Role.ADMIN →
      updateEmployee store id input context
        = (Except.error ApiError.notAuthorized, store))
    ∧ (∀ r, updateEmployee store id input context = (Except.error ApiError.notFound, r) →
      ∃ u, context.user = some u ∧ u.role = Role.ADMIN) := by
  refine ⟨?_, ?_, ?_⟩
  · intro h
    simp [updateEmployee, requireRole, h]
  · intro u hu hrole
    have : u.role = Role.EMPLOYEE := by cases hr : u.role <;> simp_all
    simp [updateEmployee, requireRole, hu, this]
  · intro r hr
    cases hu : context.user with
    | none =>
      rw [show updateEmployee store id input context
          = (Except.error ApiError.notAuthenticated, store) by
        simp [updateEmployee, requireRole, hu]] at hr
      exact absurd hr (by simp)
    | some u =>
      cases hrole : u.role with
      | ADMIN => exact ⟨u, rfl, hrole⟩
      | EMPLOYEE =>
        rw [show updateEmployee store id input context
            = (Except.error ApiError.notAuthorized, store) by
          simp [updateEmployee, requireRole, hu, hrole]] at hr
        exact absurd hr (by simp)

/-- Witness for C10: a missing id still gets `Not authenticated` for an
anonymous caller on the seed store. -/
theorem updateEmployee_auth_before_existence_witness :
    updateEmployee employees "does-not-exist" ⟨"X", 1, "C", [], 1, none⟩ ⟨none⟩
      = (Except.error ApiError.notAuthenticated, employees) :=
  (updateEmployee_auth_before_existence employees "does-not-exist"
      ⟨"X", 1, "C", [], 1, none⟩ ⟨none⟩).1 rfl

/-! ### C6: login -/

/-- C6: `login` fails `Invalid credentials` exactly when no user record
matches both username and password (plaintext comparison); on a hit it
returns the signed payload and the `{id, username, role}` projection of the
matched user (never the password).  Concretely, `admin/admin123` succeeds
with user `{1, admin, ADMIN}` and `admin/wrong` fails. -/
theorem login_spec (username password : String) :
    (login username password = Except.error ApiError.invalidCredentials
      ↔ ∀ u ∈ users, ¬(u.username = username ∧ u.password = password))
    ∧ (∀ p, login username password = Except.ok p →
        ∃ u ∈ users, u.username = username ∧ u.password = password
          ∧ p.user = ⟨u.id, u.username, u.role⟩
          ∧ p.token = ⟨u.id, u.username, u.role⟩)
    ∧ login "admin" "admin123"
        = Except.ok ⟨⟨"1", "admin", Role.ADMIN⟩, ⟨"1", "admin", Role.ADMIN⟩⟩
    ∧ login "admin" "wrong" = Except.error ApiError.invalidCredentials := by
  refine ⟨?_, ?_, by decide, by decide⟩
  · unfold login
    cases hf : users.find? (fun u => u.username == username && u.password == password) with
    | none =>
      rw [List.find?_eq_none] at hf
      constructor
      · intro _ u hu hand
        have hne := hf u hu
        rw [Bool.and_eq_true, beq_iff_eq, beq_iff_eq] at hne
        exact hne hand
      · intro _
        rfl
    | some u =>
      have hpred := List.find?_some hf
      have hmem := List.mem_of_find?_eq_some hf
      rw [Bool.and_eq_true, beq_iff_eq, beq_iff_eq] at hpred
      constructor
      · intro h
        exact absurd h (by simp)
      · intro hall
        exact absurd hpred (hall u hmem)
  · intro p hp
    unfold login at hp
    cases hf : users.find? (fun u => u.username == username && u.password == password) with
    | none =>
      rw [hf] at hp
      exact absurd hp (by simp)
    | some u =>
      rw [hf] at hp
      have hpred := List.find?_some hf
      have hmem := List.mem_of_find?_eq_some hf
      rw [Bool.and_eq_true, beq_iff_eq, beq_iff_eq] at hpred
      have hpay : (⟨⟨u.id, u.username, u.role⟩, ⟨u.id, u.username, u.role⟩⟩ : AuthPayload)
          = p := by
        injection hp
      exact ⟨u, hmem, hpred.1, hpred.2, by rw [← hpay], by rw [← hpay]⟩

/-- Witness for C6: instantiating the success case at `admin/admin123`. -/
theorem login_spec_witness :
    ∃ u ∈ users, u.username = "admin" ∧ u.password = "admin123"
      ∧ (⟨⟨"1", "admin", Role.ADMIN⟩, ⟨"1", "admin", Role.ADMIN⟩⟩ : AuthPayload).user
          = ⟨u.id, u.username, u.role⟩
      ∧ (⟨⟨"1", "admin", Role.ADMIN⟩, ⟨"1", "admin", Role.ADMIN⟩⟩ : AuthPayload).token
          = ⟨u.id, u.username, u.role⟩ :=
  (login_spec "admin" "admin123").2.1
    ⟨⟨"1", "admin", Role.ADMIN⟩, ⟨"1", "admin", Role.ADMIN⟩⟩ (by decide)

/-! ### C7 and C8: update -/

theorem updateIn_eq_none_of_absent (input : EmployeeInput) (id : String) :
    ∀ store : List Employee, (∀ e ∈ store, e.id ≠ id) →
      updateIn input id store = none := by
  intro store
  induction store with
  | nil => intro _; rfl
  | cons x rest ih =>
    intro habsent
    have hx : (x.id == id) = false :=
      beq_eq_false_iff_ne.mpr (habsent x (by simp))
    rw [updateIn, if_neg (by simp [hx]),
      ih (fun e he => habsent e (by simp [he]))]
    rfl

/-- C7: an ADMIN update whose id matches no record fails `Employee not found`
and returns the store unchanged. -/
theorem updateEmployee_notFound (store : List Employee) (id : String)
    (input : EmployeeInput) (context : Context) (u : AuthUser)
    (hu : context.user = some u) (hrole : u.role = Role.ADMIN)
    (habsent : ∀ e ∈ store, e.id ≠ id) :
    updateEmployee store id input context = (Except.error ApiError.notFound, store) := by
  have hreq : requireRole context [Role.ADMIN] = Except.ok () := by
    simp [requireRole, hu, hrole]
  simp [updateEmployee, hreq, updateIn_eq_none_of_absent input id store habsent]

/-- Witness for C7 on the seed store. -/
theorem updateEmployee_notFound_witness :
    updateEmployee employees "e99" ⟨"X", 1, "C", [], 1, none⟩
        ⟨some ⟨"1", "admin", Role.ADMIN⟩⟩
      = (Except.error ApiError.notFound, employees) :=
  updateEmployee_notFound employees "e99" ⟨"X", 1, "C", [], 1, none⟩
    ⟨some ⟨"1", "admin", Role.ADMIN⟩⟩ ⟨"1", "admin", Role.ADMIN⟩ rfl rfl (by decide)

theorem updateIn_some_decomp (input : EmployeeInput) (id : String) :
    ∀ (store : List Employee) (e : Employee) (s2 : List Employee),
      updateIn input id store = some (e, s2) →
      ∃ pre old post, store = pre ++ old :: post
        ∧ (∀ x ∈ pre, x.id ≠ id) ∧ old.id = id
        ∧ e = mergeInput old input
        ∧ s2 = pre ++ mergeInput old input :: post := by
  intro store
  induction store with
  | nil =>
    intro e s2 h
    exact absurd h (by simp [updateIn])
  | cons x rest ih =>
    intro e s2 h
    by_cases hx : x.id = id
    · rw [updateIn, if_pos (beq_iff_eq.mpr hx)] at h
      rw [Option.some.injEq, Prod.mk.injEq] at h
      exact ⟨[], x, rest, by simp, by simp, hx, h.1.symm, by simp [h.2.symm]⟩
    · rw [updateIn, if_neg (by simp [hx])] at h
      cases hrest : updateIn input id rest with
      | none =>
        rw [hrest] at h
        exact absurd h (by simp)
      | some p =>
        rw [hrest] at h
        rw [Option.map_some', Option.some.injEq, Prod.mk.injEq] at h
        obtain ⟨pre, old, post, hsdec, hpre, holdid, he, hs2⟩ :=
          ih p.1 p.2 (by rw [hrest])
        refine ⟨x :: pre, old, post, by simp [hsdec], ?_, holdid, ?_, ?_⟩
        · intro y hy
          rcases List.mem_cons.mp hy with rfl | hy2
          · exact hx
          · exact hpre y hy2
        · rw [← h.1]
          exact he
        · rw [← h.2]
          simp [hs2]

/-- C8: a successful update replaces exactly the supplied fields, keeps an
omitted `flagged` as well as `id` and `createdAt`, touches no other record,
and returns the merged record. -/
theorem updateEmployee_merge (store : List Employee) (id : String)
    (input : EmployeeInput) (context : Context) (e : Employee)
    (s2 : List Employee)
    (h : updateEmployee store id input context = (Except.ok e, s2)) :
    ∃ pre old post,
      store = pre ++ old :: post
      ∧ (∀ x ∈ pre, x.id ≠ id) ∧ old.id = id
      ∧ s2 = pre ++ e :: post
      ∧ e.id = old.id ∧ e.createdAt = old.createdAt
      ∧ e.name = input.name ∧ e.age = input.age
      ∧ e.className = input.className ∧ e.subjects = input.subjects
      ∧ e.attendance = input.attendance
      ∧ e.flagged = input.flagged.getD old.flagged := by
  unfold updateEmployee at h
  cases hreq : requireRole context [Role.ADMIN] with
  | error err =>
    rw [hreq] at h
    exact absurd h (by simp)
  | ok u0 =>
    rw [hreq] at h
    cases hupd : updateIn input id store with
    | none =>
      rw [hupd] at h
      exact absurd h (by simp)
    | some p =>
      rw [hupd] at h
      rw [Prod.mk.injEq, Except.ok.injEq] at h
      obtain ⟨pre, old, post, hsdec, hpre, holdid, he, hs2⟩ :=
        updateIn_some_decomp input id store p.1 p.2 (by rw [hupd])
      have hee : e = mergeInput old input := by rw [← h.1, he]
      refine ⟨pre, old, post, hsdec, hpre, holdid, ?_, ?_⟩
      · rw [← h.2, hs2, hee]
      · rw [hee]
        exact ⟨rfl, rfl, rfl, rfl, rfl, rfl, rfl, rfl⟩

/-- Witness for C8: updating `e2` on the seed store with an omitted
`flagged`. -/
theorem updateEmployee_merge_witness :
    ∃ pre old post,
      employees = pre ++ old :: post
      ∧ (∀ x ∈ pre, x.id ≠ "e2") ∧ old.id = "e2"
      ∧ [aliceSeed,
          ⟨"e2", "Bobby", 35, "Class B", ["English"], 90, true,
            "2024-03-01T00:00:00.000Z"⟩, claraSeed]
          = pre
            ++ (⟨"e2", "Bobby", 35, "Class B", ["English"], 90, true,
                "2024-03-01T00:00:00.000Z"⟩ : Employee) :: post
      ∧ (⟨"e2", "Bobby", 35, "Class B", ["English"], 90, true,
          "2024-03-01T00:00:00.000Z"⟩ : Employee).id = old.id
      ∧ (⟨"e2", "Bobby", 35, "Class B", ["English"], 90, true,
          "2024-03-01T00:00:00.000Z"⟩ : Employee).createdAt = old.createdAt
      ∧ (⟨"e2", "Bobby", 35, "Class B", ["English"], 90, true,
          "2024-03-01T00:00:00.000Z"⟩ : Employee).name = "Bobby"
      ∧ (⟨"e2", "Bobby", 35, "Class B", ["English"], 90, true,
          "2024-03-01T00:00:00.000Z"⟩ : Employee).age = 35
      ∧ (⟨"e2", "Bobby", 35, "Class B", ["English"], 90, true,
          "2024-03-01T00:00:00.000Z"⟩ : Employee).className = "Class B"
      ∧ (⟨"e2", "Bobby", 35, "Class B", ["English"], 90, true,
          "2024-03-01T00:00:00.000Z"⟩ : Employee).subjects = ["English"]
      ∧ (⟨"e2", "Bobby", 35, "Class B", ["English"], 90, true,
          "2024-03-01T00:00:00.000Z"⟩ : Employee).attendance = 90
      ∧ (⟨"e2", "Bobby", 35, "Class B", ["English"], 90, true,
          "2024-03-01T00:00:00.000Z"⟩ : Employee).flagged
          = (Option.none.getD old.flagged) :=
  updateEmployee_merge employees "e2" ⟨"Bobby", 35, "Class B", ["English"], 90, none⟩
    ⟨some ⟨"1", "admin", Role.ADMIN⟩⟩
    ⟨"e2", "Bobby", 35, "Class B", ["English"], 90, true, "2024-03-01T00:00:00.000Z"⟩
    [aliceSeed,
      ⟨"e2", "Bobby", 35, "Class B", ["English"], 90, true,
        "2024-03-01T00:00:00.000Z"⟩, claraSeed]
    (by decide)

/-! ### C9: id uniqueness -/

theorem valFrom_nil (a : Nat) : valFrom a [] = a := rfl

theorem valFrom_cons (a : Nat) (c : Char) (cs : List Char) :
    valFrom a (c :: cs) = valFrom (a * 10 + digitVal c) cs := rfl

theorem valFrom_append : ∀ (l1 l2 : List Char) (a : Nat),
    valFrom a (l1 ++ l2) = valFrom (valFrom a l1) l2 := by
  intro l1
  induction l1 with
  | nil => intro l2 a; rfl
  | cons c cs ih =>
    intro l2 a
    exact ih l2 (a * 10 + digitVal c)

theorem digitVal_digitChar : ∀ d : Nat, d < 10 → digitVal (Nat.digitChar d) = d := by
  decide

theorem toDigitsCore_append10 : ∀ (fuel n : Nat) (ds : List Char),
    Nat.toDigitsCore 10 fuel n ds = Nat.toDigitsCore 10 fuel n [] ++ ds := by
  intro fuel
  induction fuel with
  | zero => intro n ds; rfl
  | succ f ih =>
    intro n ds
    simp only [Nat.toDigitsCore]
    by_cases h : n / 10 = 0
    · rw [if_pos h, if_pos h]
      rfl
    · rw [if_neg h, if_neg h, ih (n / 10) (Nat.digitChar (n % 10) :: ds),
        ih (n / 10) [Nat.digitChar (n % 10)], List.append_assoc]
      rfl

theorem valFrom_toDigitsCore10 : ∀ (fuel n : Nat), n < fuel →
    valFrom 0 (Nat.toDigitsCore 10 fuel n []) = n := by
  intro fuel
  induction fuel with
  | zero => intro n h; exact absurd h (Nat.not_lt_zero n)
  | succ f ih =>
    intro n h
    simp only [Nat.toDigitsCore]
    by_cases h0 : n / 10 = 0
    · rw [if_pos h0]
      rw [valFrom_cons, valFrom_nil, digitVal_digitChar (n % 10) (by omega)]
      omega
    · rw [if_neg h0, toDigitsCore_append10, valFrom_append,
        ih (n / 10) (by omega)]
      rw [valFrom_cons, valFrom_nil, digitVal_digitChar (n % 10) (by omega)]
      omega

theorem natReprData_inj {m n : Nat} (h : (Nat.repr m).data = (Nat.repr n).data) :
    m = n := by
  have hv1 := valFrom_toDigitsCore10 (m + 1) m (Nat.lt_succ_self m)
  have hv2 := valFrom_toDigitsCore10 (n + 1) n (Nat.lt_succ_self n)
  rw [show Nat.toDigitsCore 10 (m + 1) m [] = (Nat.repr m).data from rfl, h,
    show (Nat.repr n).data = Nat.toDigitsCore 10 (n + 1) n [] from rfl, hv2] at hv1
  exact hv1.symm

theorem eId_inj {i j : Nat} (h : ("e" ++ Nat.repr i) = ("e" ++ Nat.repr j)) :
    i = j := by
  have hgen : ∀ s : String, ("e" ++ s).data = 'e' :: s.data := fun s => rfl
  have hd := congrArg String.data h
  rw [hgen, hgen] at hd
  injection hd with hhead htail
  exact natReprData_inj htail

theorem reachable_map_id : ∀ s, Reachable s →
    s.map (fun e => e.id) = idsSpec s.length := by
  intro s h
  induction h with
  | seed => decide
  | add s input context now hs ih =>
    cases hreq : requireRole context [Role.ADMIN] with
    | error err => simpa [addEmployee, hreq] using ih
    | ok u0 =>
      simp only [addEmployee, hreq]
      rw [List.map_append, ih]
      simp only [List.map_cons, List.map_nil, List.length_append,
        List.length_cons, List.length_nil]
      rw [idsSpec, idsSpec, List.range_succ, List.map_append]
      rfl
  | update s id input context hs ih =>
    cases hreq : requireRole context [Role.ADMIN] with
    | error err => simpa [updateEmployee, hreq] using ih
    | ok u0 =>
      cases hupd : updateIn input id s with
      | none => simpa [updateEmployee, hreq, hupd] using ih
      | some p =>
        simp only [updateEmployee, hreq, hupd]
        obtain ⟨pre, old, post, hsdec, hpre, holdid, he, hs2⟩ :=
          updateIn_some_decomp input id s p.1 p.2 (by rw [hupd])
        rw [hs2]
        rw [hsdec] at ih
        have hid : (mergeInput old input).id = old.id := rfl
        simp only [List.map_append, List.map_cons, hid, List.length_append,
          List.length_cons] at ih ⊢
        exact ih

/-- C9: every store reachable from the seed by `addEmployee` and
`updateEmployee` has pairwise-distinct ids, and the id `addEmployee` would
assign next is never one already present (the counter scheme never reissues
an id). -/
theorem reachable_ids_fresh (s : List Employee) (h : Reachable s) :
    (s.map (fun e => e.id)).Nodup
    ∧ freshId s ∉ s.map (fun e => e.id) := by
  have hids := reachable_map_id s h
  have hinj : Function.Injective (fun i : Nat => "e" ++ Nat.repr (i + 1)) := by
    intro i j hij
    have := eId_inj hij
    omega
  constructor
  · rw [hids, idsSpec]
    exact List.Nodup.map hinj (List.nodup_range _)
  · rw [hids, idsSpec]
    intro hmem
    obtain ⟨i, hi, heq⟩ := List.mem_map.mp hmem
    have hii : i + 1 = s.length + 1 := eId_inj heq
    have hilt := List.mem_range.mp hi
    omega

/-- Witness for C9 at the seed store. -/
theorem reachable_ids_fresh_witness :
    (employees.map (fun e => e.id)).Nodup
    ∧ freshId employees ∉ employees.map (fun e => e.id) :=
  reachable_ids_fresh employees Reachable.seed

end EmployeeServer
